import Mathlib

/-!
# Verification of the librespot `spotify_id` identifier and URI codec

A shallow embedding of `src/core/src/spotify_id.rs`: the 128-bit catalog
identifier codecs (base62, base16, raw bytes), the percent/plus text codec for
local items, and the colon-delimited `spotify:` URI grammar parser/formatter.

Rust strings are modelled as their UTF-8 byte sequences, `List Nat` with each
element below 256, so that `str::len` (bytes), `split(':')` (on the byte 0x3A)
and the percent codec (which operates on bytes) are all faithful.  `u128`,
`u32` and `usize` are modelled as `Nat` with explicit bounds where overflow
matters.  Fallible operations return `Except`.

The bodies of the external crates the source calls (`base62`,
`data_encoding::HEXLOWER`, `percent_encoding`, and the standard library's
integer parsing) are not part of this repository; each of those is modelled
from the specification's description of it, and every such definition carries
a doc comment starting with `Modelled from the spec:`.  Everything else is
translated directly from the Rust source.
-/

namespace SpotifyIdSpec

/-- The UTF-8 byte sequence of an ASCII string literal, used to write the
byte-list model of Rust string constants readably. -/
def bytes (s : String) : List Nat :=
  s.data.map (fun c => c.toNat)

instance instDecEqExcept {α β : Type} [DecidableEq α] [DecidableEq β] :
    DecidableEq (Except α β) := fun x y =>
  match x, y with
  | .ok a, .ok b =>
    match decEq a b with
    | isTrue h => isTrue (h ▸ rfl)
    | isFalse h => isFalse (fun hc => h (Except.ok.inj hc))
  | .error a, .error b =>
    match decEq a b with
    | isTrue h => isTrue (h ▸ rfl)
    | isFalse h => isFalse (fun hc => h (Except.error.inj hc))
  | .ok _, .error _ => isFalse (fun hc => Except.noConfusion hc)
  | .error _, .ok _ => isFalse (fun hc => Except.noConfusion hc)

/-- Model of Rust `str::split(':')`: split a byte sequence on the byte 0x3A
(`:`), keeping empty segments, so that the result is always nonempty. -/
def splitColon : List Nat → List (List Nat)
  | [] => [[]]
  | b :: rest =>
    match splitColon rest with
    | [] => [[]]
    | seg :: segs => if b = 58 then [] :: seg :: segs else (b :: seg) :: segs

/-- Rejoin a nonempty segment list with `:` separators, as the parser's
`rest_from_parts` loop does. -/
def joinColon (segs : List (List Nat)) : List Nat :=
  match segs with
  | [] => []
  | seg :: rest => seg ++ rest.flatMap (fun q => 58 :: q)

theorem splitColon_ne_nil (s : List Nat) : splitColon s ≠ [] := by
  cases s with
  | nil => simp [splitColon]
  | cons b rest =>
    simp only [splitColon]
    cases h : splitColon rest with
    | nil => simp
    | cons seg segs => by_cases hb : b = 58 <;> simp [hb]

theorem splitColon_no_colon {s : List Nat} (h : 58 ∉ s) : splitColon s = [s] := by
  induction s with
  | nil => rfl
  | cons b rest ih =>
    have hb : b ≠ 58 := fun hb => h (hb ▸ List.mem_cons_self b rest)
    have hrest : 58 ∉ rest := fun hm => h (List.mem_cons_of_mem b hm)
    simp [splitColon, ih hrest, hb]

theorem splitColon_append {xs ys : List Nat} (h : 58 ∉ xs) :
    splitColon (xs ++ 58 :: ys) = xs :: splitColon ys := by
  induction xs with
  | nil =>
    simp only [List.nil_append, splitColon]
    cases hsp : splitColon ys with
    | nil => exact absurd hsp (splitColon_ne_nil ys)
    | cons seg segs => simp
  | cons b rest ih =>
    have hb : b ≠ 58 := fun hb => h (hb ▸ List.mem_cons_self b rest)
    have hrest : 58 ∉ rest := fun hm => h (List.mem_cons_of_mem b hm)
    have := ih hrest
    simp only [List.cons_append, splitColon, List.append_eq, this, hb, if_false]

theorem joinColon_splitColon (s : List Nat) : joinColon (splitColon s) = s := by
  induction s with
  | nil => rfl
  | cons b rest ih =>
    simp only [splitColon]
    cases hsp : splitColon rest with
    | nil => exact absurd hsp (splitColon_ne_nil rest)
    | cons seg segs =>
      rw [hsp] at ih
      by_cases hb : b = 58 <;>
        simp_all [joinColon]

/-! ## The base62 codec

The source calls `base62::encode_alternative` / `base62::decode_alternative`
from the external `base62` crate. -/

/-- Digit value `d < 62` to its byte in the alternative base62 alphabet
`0-9 a-z A-Z` (digits, then lowercase, then uppercase). -/
def alph (d : Nat) : Nat :=
  if d < 10 then 48 + d else if d < 36 then 87 + d else 29 + d

/-- Byte to digit value under the alternative base62 alphabet; `none` for a
byte outside the alphabet. -/
def alphInv (b : Nat) : Option Nat :=
  if 48 ≤ b ∧ b ≤ 57 then some (b - 48)
  else if 97 ≤ b ∧ b ≤ 122 then some (b - 87)
  else if 65 ≤ b ∧ b ≤ 90 then some (b - 29)
  else none

/-- Fixed-width base62: the `k` low-order base-62 digits of `v`, most
significant first, as alphabet bytes. -/
def encodeAux : Nat → Nat → List Nat
  | 0, _ => []
  | k + 1, v => encodeAux k (v / 62) ++ [alph (v % 62)]

/-- Modelled from the spec: `base62::encode_alternative` on a `u128`, which the
spec fixes as the canonical encoding, "always exactly 22 characters...
zero-padded", under the alternative alphabet.  The crate's source is not part
of this repository. -/
def encode_alternative (v : Nat) : List Nat :=
  encodeAux 22 v

/-- Error message bytes standing in for the `base62` crate's invalid-byte
decode error text. -/
def msgInvalidBase62Byte : List Nat := bytes ("invalid base62 byte")

/-- Error message bytes standing in for the `base62` crate's arithmetic
overflow decode error text. -/
def msgBase62Overflow : List Nat := bytes ("arithmetic overflow")

/-- Error message bytes standing in for the `base62` crate's empty-input
decode error text. -/
def msgBase62Empty : List Nat := bytes ("empty input")

/-- The base-62 value of a byte sequence, reading bytes most significant
first; bytes outside the alphabet count as 0 (callers check validity first). -/
def base62Val (s : List Nat) : Nat :=
  s.foldl (fun acc b => acc * 62 + (alphInv b).getD 0) 0

/-- Modelled from the spec: `base62::decode_alternative`, which decodes under
the alternative alphabet "into a value representable in 128 bits"; an empty
input, a byte outside the alphabet, or a value not representable in 128 bits
is a decode error.  The crate's source is not part of this repository. -/
def decode_alternative (s : List Nat) : Except (List Nat) Nat :=
  if s = [] then .error msgBase62Empty
  else if s.all (fun b => (alphInv b).isSome) then
    if base62Val s < 2 ^ 128 then .ok (base62Val s) else .error msgBase62Overflow
  else .error msgInvalidBase62Byte

/-! ## The error type and the `SpotifyId` codecs -/

/-- `SpotifyIdError` from the source; strings are byte sequences. -/
inductive SpotifyIdError where
  | invalidIdSize (expected : Nat) (src : List Nat)
  | invalidIdBytes (b : List Nat)
  | invalidFormat (reason : List Nat) (src : List Nat)
  | invalidScheme (src : List Nat)
deriving DecidableEq, Repr

/-- `SpotifyId::from_base62`: the length (in bytes, as Rust `str::len`) must
be exactly 22, checked before decoding; then decode under the alternative
alphabet, mapping its error to `InvalidFormat`. -/
def from_base62 (src : List Nat) : Except SpotifyIdError Nat :=
  if src.length ≠ 22 then .error (.invalidIdSize 22 src)
  else
    match decode_alternative src with
    | .ok x => .ok x
    | .error e => .error (.invalidFormat e src)

/-- `SpotifyId::into_base62`. -/
def into_base62 (v : Nat) : List Nat :=
  encode_alternative v

section Base62Lemmas

theorem alphInv_alph {d : Nat} (h : d < 62) : alphInv (alph d) = some d := by
  interval_cases d <;> rfl

theorem alph_isSome {d : Nat} (h : d < 62) : (alphInv (alph d)).isSome = true := by
  rw [alphInv_alph h]; rfl

theorem alphInv_spec {b d : Nat} (h : alphInv b = some d) : alph d = b ∧ d < 62 := by
  unfold alphInv at h
  by_cases h1 : 48 ≤ b ∧ b ≤ 57
  · rw [if_pos h1] at h
    injection h with h
    subst h
    refine ⟨?_, by omega⟩
    unfold alph
    rw [if_pos (by omega)]
    omega
  · rw [if_neg h1] at h
    by_cases h2 : 97 ≤ b ∧ b ≤ 122
    · rw [if_pos h2] at h
      injection h with h
      subst h
      refine ⟨?_, by omega⟩
      unfold alph
      rw [if_neg (by omega), if_pos (by omega)]
      omega
    · rw [if_neg h2] at h
      by_cases h3 : 65 ≤ b ∧ b ≤ 90
      · rw [if_pos h3] at h
        injection h with h
        subst h
        refine ⟨?_, by omega⟩
        unfold alph
        rw [if_neg (by omega), if_neg (by omega)]
        omega
      · rw [if_neg h3] at h
        exact absurd h (by simp)

theorem encodeAux_length (k v : Nat) : (encodeAux k v).length = k := by
  induction k generalizing v with
  | zero => rfl
  | succ k ih => simp [encodeAux, ih]

theorem encodeAux_mem {k v b : Nat} (h : b ∈ encodeAux k v) : ∃ d, d < 62 ∧ b = alph d := by
  induction k generalizing v with
  | zero => simp [encodeAux] at h
  | succ k ih =>
    simp only [encodeAux, List.mem_append, List.mem_singleton] at h
    rcases h with h | h
    · exact ih h
    · exact ⟨v % 62, Nat.mod_lt _ (by omega), h⟩

theorem encodeAux_no_colon (k v : Nat) : 58 ∉ encodeAux k v := by
  intro hmem
  obtain ⟨d, hd, hb⟩ := encodeAux_mem hmem
  unfold alph at hb
  split at hb <;> [skip; split at hb] <;> omega

theorem encodeAux_all_valid (k v : Nat) :
    (encodeAux k v).all (fun b => (alphInv b).isSome) = true := by
  rw [List.all_eq_true]
  intro b hb
  obtain ⟨d, hd, rfl⟩ := encodeAux_mem hb
  exact alph_isSome hd

theorem base62Val_append (xs ys : List Nat) :
    base62Val (xs ++ ys) = ys.foldl (fun acc b => acc * 62 + (alphInv b).getD 0) (base62Val xs) := by
  unfold base62Val
  rw [List.foldl_append]

theorem base62Val_encodeAux {k v : Nat} (h : v < 62 ^ k) : base62Val (encodeAux k v) = v := by
  induction k generalizing v with
  | zero =>
    have hv : v = 0 := by simpa [Nat.lt_one_iff] using h
    subst hv
    rfl
  | succ k ih =>
    have hdiv : v / 62 < 62 ^ k := by
      rw [Nat.div_lt_iff_lt_mul (by omega)]
      calc v < 62 ^ (k + 1) := h
      _ = 62 ^ k * 62 := by ring
    simp only [encodeAux, base62Val_append, List.foldl_cons, List.foldl_nil]
    rw [ih hdiv, alphInv_alph (Nat.mod_lt _ (by omega))]
    simp only [Option.getD_some]
    omega

theorem encodeAux_base62Val (s : List Nat)
    (h : s.all (fun b => (alphInv b).isSome) = true) :
    encodeAux s.length (base62Val s) = s := by
  induction s using List.reverseRecOn with
  | nil => rfl
  | append_singleton xs y ih =>
    rw [List.all_eq_true] at h
    have hy : (alphInv y).isSome := h y (by simp)
    obtain ⟨d, hd⟩ := Option.isSome_iff_exists.mp hy
    obtain ⟨hyd, hdlt⟩ := alphInv_spec hd
    have hxs : xs.all (fun b => (alphInv b).isSome) = true := by
      rw [List.all_eq_true]
      exact fun b hb => h b (List.mem_append_left _ hb)
    have hval : base62Val (xs ++ [y]) = base62Val xs * 62 + d := by
      rw [base62Val_append]
      simp [hd]
    have hdiv : (base62Val xs * 62 + d) / 62 = base62Val xs := by omega
    have hmod : (base62Val xs * 62 + d) % 62 = d := by omega
    rw [hval]
    simp only [List.length_append, List.length_singleton, encodeAux]
    rw [hdiv, hmod, ih hxs, hyd]

theorem two_pow_128_lt : 2 ^ 128 < 62 ^ 22 := by norm_num

/-- Round trip: decoding the padded encoding of any 128-bit value recovers it. -/
theorem decode_encode_alternative {v : Nat} (h : v < 2 ^ 128) :
    decode_alternative (encode_alternative v) = .ok v := by
  have hlt : v < 62 ^ 22 := lt_trans h two_pow_128_lt
  have hval := base62Val_encodeAux hlt
  have hne : encodeAux 22 v ≠ [] := by
    intro hnil
    have := encodeAux_length 22 v
    rw [hnil] at this
    simp at this
  unfold decode_alternative encode_alternative
  rw [if_neg hne, if_pos (encodeAux_all_valid 22 v), hval, if_pos h]

theorem from_base62_encode {v : Nat} (h : v < 2 ^ 128) :
    from_base62 (into_base62 v) = .ok v := by
  unfold from_base62 into_base62
  rw [if_neg (by simp [encode_alternative, encodeAux_length]), decode_encode_alternative h]

theorem into_base62_length (v : Nat) : (into_base62 v).length = 22 :=
  encodeAux_length 22 v

theorem into_base62_no_colon (v : Nat) : 58 ∉ into_base62 v :=
  encodeAux_no_colon 22 v

end Base62Lemmas

/-! ## The base16 (hex) codec

The source calls `data_encoding::HEXLOWER.decode_mut` into a 16-byte buffer
and inspects the decoded length afterwards. -/

/-- Error message bytes standing in for the hex decoder's invalid-symbol
error text. -/
def msgHexSymbol : List Nat := bytes ("invalid symbol")

/-- Error message bytes standing in for the hex decoder's invalid-length
error text. -/
def msgHexLength : List Nat := bytes ("invalid length")

/-- Is this byte a strict lowercase hex symbol `0-9a-f`? -/
def isHexLowerByte (b : Nat) : Bool :=
  (48 ≤ b && b ≤ 57) || (97 ≤ b && b ≤ 102)

/-- The value of a lowercase hex symbol (callers check `isHexLowerByte`). -/
def hexLowerVal (b : Nat) : Nat :=
  if b ≤ 57 then b - 48 else b - 87

/-- Modelled from the spec: `data_encoding::HEXLOWER` decoding, "strict
lowercase-hex decoding": pairs of lowercase hex symbols become bytes; a
symbol outside `0-9a-f` or an odd input length is a decode error.  The
crate's source is not part of this repository. -/
def hexDecode : List Nat → Except (List Nat) (List Nat)
  | [] => .ok []
  | [_] => .error msgHexLength
  | a :: b :: rest =>
    if isHexLowerByte a && isHexLowerByte b then
      match hexDecode rest with
      | .ok bs => .ok ((hexLowerVal a * 16 + hexLowerVal b) :: bs)
      | .error e => .error e
    else .error msgHexSymbol

/-- The big-endian value of a byte sequence, as `u128::from_be_bytes`. -/
def beVal (buf : List Nat) : Nat :=
  buf.foldl (fun acc b => acc * 256 + b) 0

/-- `SpotifyId::from_base16`: decode the input as strict lowercase hex; a
decoded length other than 16 bytes reports `InvalidIdSize(32, src)`, a decode
failure reports `InvalidFormat`, and otherwise the result is the big-endian
value of the decoded bytes. -/
def from_base16 (src : List Nat) : Except SpotifyIdError Nat :=
  match hexDecode src with
  | .ok buf =>
    if buf.length = 16 then .ok (beVal buf)
    else .error (.invalidIdSize 32 src)
  | .error e => .error (.invalidFormat e src)

section HexLemmas

/-- The pure pair-decoding of an even-length lowercase-hex byte sequence. -/
def hexBytes : List Nat → List Nat
  | [] => []
  | [_] => []
  | a :: b :: rest => (hexLowerVal a * 16 + hexLowerVal b) :: hexBytes rest

theorem hexDecode_eq_ok (s : List Nat) (heven : s.length % 2 = 0)
    (hval : ∀ b ∈ s, isHexLowerByte b = true) :
    hexDecode s = .ok (hexBytes s) := by
  induction s using hexDecode.induct with
  | case1 => rfl
  | case2 a => simp only [List.length_cons, List.length_nil] at heven; omega
  | case3 a b rest hok bs hrec ih =>
    have heven2 : rest.length % 2 = 0 := by
      simp only [List.length_cons] at heven
      omega
    have hrest := ih heven2 (fun x hx => hval x (by simp [hx]))
    rw [hrest] at hrec
    injection hrec with hbs
    simp only [hexDecode, hexBytes, hok, if_true, hrest]
  | case4 a b rest hok e hrec ih =>
    have heven2 : rest.length % 2 = 0 := by
      simp only [List.length_cons] at heven
      omega
    have hrest := ih heven2 (fun x hx => hval x (by simp [hx]))
    rw [hrest] at hrec
    cases hrec
  | case5 a b rest hbad =>
    have ha : isHexLowerByte a = true := hval a (by simp)
    have hb : isHexLowerByte b = true := hval b (by simp)
    rw [ha, hb] at hbad
    simp at hbad

theorem hexBytes_length (s : List Nat) (heven : s.length % 2 = 0) :
    (hexBytes s).length = s.length / 2 := by
  induction s using hexBytes.induct with
  | case1 => rfl
  | case2 a => simp only [List.length_cons, List.length_nil] at heven; omega
  | case3 a b rest ih =>
    have heven2 : rest.length % 2 = 0 := by
      simp only [List.length_cons] at heven
      omega
    simp only [hexBytes, List.length_cons]
    rw [ih heven2]
    omega

theorem hexDecode_error (s : List Nat)
    (h : s.length % 2 = 1 ∨ ∃ b ∈ s, isHexLowerByte b = false) :
    ∃ e, hexDecode s = .error e := by
  induction s using hexDecode.induct with
  | case1 => simp at h
  | case2 a => exact ⟨msgHexLength, rfl⟩
  | case3 a b rest hok bs hrec ih =>
    have h2 : rest.length % 2 = 1 ∨ ∃ x ∈ rest, isHexLowerByte x = false := by
      rcases h with h | ⟨x, hx, hxf⟩
      · left
        simp only [List.length_cons] at h
        omega
      · right
        simp only [List.mem_cons] at hx
        rcases hx with rfl | rfl | hx
        · rw [hxf] at hok; simp at hok
        · rw [hxf] at hok; simp at hok
        · exact ⟨x, hx, hxf⟩
    obtain ⟨e2, he2⟩ := ih h2
    rw [he2] at hrec
    cases hrec
  | case4 a b rest hok e hrec ih =>
    exact ⟨e, by simp only [hexDecode, hok, if_true, hrec]⟩
  | case5 a b rest hbad =>
    refine ⟨msgHexSymbol, ?_⟩
    simp only [hexDecode]
    rw [if_neg hbad]

end HexLemmas

/-! ## Decimal integer formatting and parsing -/

/-- Error message bytes standing in for `ParseIntError` on empty input. -/
def msgIntEmpty : List Nat := bytes ("cannot parse integer from empty string")

/-- Error message bytes standing in for `ParseIntError` on a non-digit. -/
def msgIntInvalidDigit : List Nat := bytes ("invalid digit found in string")

/-- Error message bytes standing in for `ParseIntError` on overflow. -/
def msgIntTooLarge : List Nat := bytes ("number too large to fit in target type")

/-- Fuel-driven decimal printer; the fuel argument only serves structural
recursion and `natToStr` always supplies enough. -/
def natToStrAux : Nat → Nat → List Nat
  | 0, _ => []
  | fuel + 1, n => if n < 10 then [48 + n] else natToStrAux fuel (n / 10) ++ [48 + n % 10]

/-- Modelled from the spec: Rust unsigned `to_string`, minimal decimal
digits. -/
def natToStr (n : Nat) : List Nat :=
  natToStrAux (n + 1) n

/-- The decimal value of a digit-byte sequence, most significant first. -/
def decVal (s : List Nat) : Nat :=
  s.foldl (fun acc b => acc * 10 + (b - 48)) 0

/-- Strip the single optional leading `+` sign accepted by Rust unsigned
integer parsing. -/
def parseStrip (s : List Nat) : List Nat :=
  match s with
  | 43 :: r => r
  | _ => s

/-- Modelled from the spec: Rust `str::parse` for an unsigned integer type
with exclusive upper bound `bound` (`2^32` for `u32`, `2^64` for `usize`): an
optional leading `+`, then one or more ASCII digits; empty input, a non-digit,
or a value reaching `bound` is an error. -/
def parseUnsigned (bound : Nat) (s : List Nat) : Except (List Nat) Nat :=
  if s = [] then .error msgIntEmpty
  else if parseStrip s = [] then .error msgIntInvalidDigit
  else if (parseStrip s).all (fun b => 48 ≤ b && b ≤ 57) then
    if decVal (parseStrip s) < bound then .ok (decVal (parseStrip s))
    else .error msgIntTooLarge
  else .error msgIntInvalidDigit

section DecimalLemmas

theorem decVal_append_digit (xs : List Nat) (y : Nat) :
    decVal (xs ++ [y]) = decVal xs * 10 + (y - 48) := by
  unfold decVal
  rw [List.foldl_append]
  rfl

theorem natToStrAux_spec (fuel : Nat) : ∀ n, n ≤ fuel →
    natToStrAux (fuel + 1) n ≠ [] ∧ (∀ b ∈ natToStrAux (fuel + 1) n, 48 ≤ b ∧ b ≤ 57) ∧
      decVal (natToStrAux (fuel + 1) n) = n := by
  induction fuel with
  | zero =>
    intro n hn
    have h0 : n = 0 := by omega
    subst h0
    refine ⟨by simp [natToStrAux], ?_, by simp [natToStrAux, decVal]⟩
    intro b hb
    simp only [natToStrAux, if_pos (by omega : (0:Nat) < 10), List.mem_singleton] at hb
    omega
  | succ fuel ih =>
    intro n hn
    have hstep : natToStrAux (fuel + 1 + 1) n =
        if n < 10 then [48 + n] else natToStrAux (fuel + 1) (n / 10) ++ [48 + n % 10] := rfl
    by_cases h : n < 10
    · rw [hstep, if_pos h]
      refine ⟨by simp, ?_, ?_⟩
      · intro b hb
        simp only [List.mem_singleton] at hb
        omega
      · simp [decVal]
    · obtain ⟨hne, hdig, hval⟩ := ih (n / 10) (by omega)
      rw [hstep, if_neg h]
      refine ⟨by simp, ?_, ?_⟩
      · intro b hb
        rcases List.mem_append.mp hb with hb | hb
        · exact hdig b hb
        · simp only [List.mem_singleton] at hb
          omega
      · rw [decVal_append_digit, hval]
        omega

theorem natToStr_spec (n : Nat) :
    natToStr n ≠ [] ∧ (∀ b ∈ natToStr n, 48 ≤ b ∧ b ≤ 57) ∧ decVal (natToStr n) = n :=
  natToStrAux_spec n n le_rfl

theorem natToStr_digits (n : Nat) : ∀ b ∈ natToStr n, 48 ≤ b ∧ b ≤ 57 :=
  (natToStr_spec n).2.1

theorem natToStr_no_colon (n : Nat) : 58 ∉ natToStr n := by
  intro h
  have := natToStr_digits n 58 h
  omega

theorem parseStrip_of_head_ne {s : List Nat} (h : ∀ b ∈ s, b ≠ 43) :
    parseStrip s = s := by
  unfold parseStrip
  split
  · rename_i r
    exact absurd rfl (h 43 (by simp))
  · rfl

theorem parseUnsigned_natToStr {bound n : Nat} (h : n < bound) :
    parseUnsigned bound (natToStr n) = .ok n := by
  obtain ⟨hne, hdig, hval⟩ := natToStr_spec n
  have ht : parseStrip (natToStr n) = natToStr n :=
    parseStrip_of_head_ne (fun b hb => by have := hdig b hb; omega)
  have hall : (natToStr n).all (fun b => 48 ≤ b && b ≤ 57) = true := by
    rw [List.all_eq_true]
    intro b hb
    have := hdig b hb
    simp only [Bool.and_eq_true, decide_eq_true_eq]
    omega
  unfold parseUnsigned
  rw [if_neg hne, ht, if_neg hne, if_pos hall, hval, if_pos h]

end DecimalLemmas

/-! ## The percent/plus text codec -/

/-- The space-to-plus substitution `url_encode` applies after
percent-encoding. -/
def spaceToPlus (b : Nat) : Nat :=
  if b = 32 then 43 else b

/-- The plus-to-space substitution `url_decode` applies before
percent-decoding. -/
def plusToSpace (b : Nat) : Nat :=
  if b = 43 then 32 else b

/-- Modelled from the spec: membership of a byte in `SPOTIFY_PCT_SET`, "a set
consisting of control characters plus `:`, `+`, and `%` (space is deliberately
excluded)"; `CONTROLS` is the C0 range `0x00-0x1F` and `0x7F`. -/
def inPctSet (b : Nat) : Bool :=
  b < 32 || b = 127 || b = 58 || b = 43 || b = 37

/-- Uppercase hex digit byte of a value below 16, as percent escapes use. -/
def hexUpperDigit (d : Nat) : Nat :=
  if d < 10 then 48 + d else 55 + d

/-- The three-byte percent escape of a byte. -/
def pctEscape (b : Nat) : List Nat :=
  [37, hexUpperDigit (b / 16), hexUpperDigit (b % 16)]

/-- Modelled from the spec: `percent_encoding::utf8_percent_encode` over the
string's bytes — a byte in the set, and every non-ASCII byte, becomes its
percent escape; every other byte stays itself.  The crate's source is not
part of this repository. -/
def percentEncodeBytes (s : List Nat) : List Nat :=
  s.flatMap (fun b => if 128 ≤ b || inPctSet b then pctEscape b else [b])

/-- `url_encode` from the source: percent-encode with `SPOTIFY_PCT_SET`, then
replace every space character of the result with `+`. -/
def url_encode (s : List Nat) : List Nat :=
  (percentEncodeBytes s).map spaceToPlus

/-- Value of an ASCII hex digit byte of either case; `none` otherwise. -/
def hexAnyVal (b : Nat) : Option Nat :=
  if 48 ≤ b ∧ b ≤ 57 then some (b - 48)
  else if 65 ≤ b ∧ b ≤ 70 then some (b - 55)
  else if 97 ≤ b ∧ b ≤ 102 then some (b - 87)
  else none

/-- Modelled from the spec: `percent_encoding::percent_decode` — each `%`
followed by two hex digits becomes the byte they denote; any other byte,
including a `%` not starting a valid escape, passes through unchanged. -/
def percentDecodeBytes : List Nat → List Nat
  | 37 :: a :: c :: r2 =>
    match hexAnyVal a, hexAnyVal c with
    | some x, some y => (x * 16 + y) :: percentDecodeBytes r2
    | _, _ => 37 :: percentDecodeBytes (a :: c :: r2)
  | b :: rest => b :: percentDecodeBytes rest
  | [] => []

/-- Is this byte a valid continuation byte `0x80-0xBF` of UTF-8? -/
def isCont (b : Nat) : Bool := 128 ≤ b && b ≤ 191

/-- Modelled from the spec: validity of a byte sequence as UTF-8, the check
Rust performs on the percent-decoded bytes ("requires the final bytes to be
valid UTF-8"). -/
def utf8Valid : List Nat → Bool
  | [] => true
  | b :: rest =>
    if b ≤ 127 then utf8Valid rest
    else if 194 ≤ b && b ≤ 223 then
      match rest with
      | c :: r => isCont c && utf8Valid r
      | [] => false
    else if b = 224 then
      match rest with
      | c :: d :: r => (160 ≤ c && c ≤ 191) && isCont d && utf8Valid r
      | _ => false
    else if (225 ≤ b && b ≤ 236) || (238 ≤ b && b ≤ 239) then
      match rest with
      | c :: d :: r => isCont c && isCont d && utf8Valid r
      | _ => false
    else if b = 237 then
      match rest with
      | c :: d :: r => (128 ≤ c && c ≤ 159) && isCont d && utf8Valid r
      | _ => false
    else if b = 240 then
      match rest with
      | c :: d :: e :: r => (144 ≤ c && c ≤ 191) && isCont d && isCont e && utf8Valid r
      | _ => false
    else if 241 ≤ b && b ≤ 243 then
      match rest with
      | c :: d :: e :: r => isCont c && isCont d && isCont e && utf8Valid r
      | _ => false
    else if b = 244 then
      match rest with
      | c :: d :: e :: r => (128 ≤ c && c ≤ 143) && isCont d && isCont e && utf8Valid r
      | _ => false
    else false

/-- Error message bytes standing in for the `Utf8Error` display text. -/
def msgUtf8 : List Nat := bytes ("invalid utf-8 sequence")

/-- The number of characters of a UTF-8 byte sequence, as Rust's
`str::chars().count()`: every byte that is not a continuation byte starts a
character. -/
def utf8CharCount (s : List Nat) : Nat :=
  (s.filter (fun b => !(128 ≤ b && b ≤ 191))).length

/-- `url_decode` from the source: first replace every `+` byte with a space,
then percent-decode, then require the result to be valid UTF-8, reporting
`InvalidFormat` with the whole original URI `src` on failure. -/
def url_decode (src s : List Nat) : Except SpotifyIdError (List Nat) :=
  if utf8Valid (percentDecodeBytes (s.map plusToSpace)) then
    .ok (percentDecodeBytes (s.map plusToSpace))
  else .error (.invalidFormat msgUtf8 src)

section PercentLemmas

theorem hexAnyVal_hexUpperDigit {d : Nat} (h : d < 16) :
    hexAnyVal (hexUpperDigit d) = some d := by
  interval_cases d <;> rfl

theorem hexUpperDigit_ne (d : Nat) : hexUpperDigit d ≠ 58 ∧ hexUpperDigit d ≠ 43 ∧
    hexUpperDigit d ≠ 32 ∧ hexUpperDigit d ≠ 37 := by
  unfold hexUpperDigit
  split <;> omega

theorem spaceToPlus_ne_32 {b : Nat} (h : b ≠ 32) : spaceToPlus b = b := if_neg h

theorem plusToSpace_ne_43 {b : Nat} (h : b ≠ 43) : plusToSpace b = b := if_neg h

/-- One encoded byte, after the space-to-plus pass. -/
def encByte (b : Nat) : List Nat :=
  (if 128 ≤ b || inPctSet b then pctEscape b else [b]).map spaceToPlus

theorem url_encode_eq_flatMap (s : List Nat) : url_encode s = s.flatMap encByte := by
  unfold url_encode percentEncodeBytes encByte
  rw [List.map_flatMap]

theorem not_inPctSet {b : Nat} (h : inPctSet b = false) :
    32 ≤ b ∧ b ≠ 127 ∧ b ≠ 58 ∧ b ≠ 43 ∧ b ≠ 37 := by
  unfold inPctSet at h
  simp only [Bool.or_eq_false_iff, decide_eq_false_iff_not] at h
  omega

theorem mem_encByte_ne_colon {b x : Nat} (h : x ∈ encByte b) : x ≠ 58 := by
  unfold encByte pctEscape at h
  by_cases hcase : (128 ≤ b || inPctSet b) = true
  · rw [if_pos hcase] at h
    simp only [List.map_cons, List.map_nil, List.mem_cons, List.not_mem_nil, or_false] at h
    have h1 := hexUpperDigit_ne (b / 16)
    have h2 := hexUpperDigit_ne (b % 16)
    rcases h with rfl | rfl | rfl
    · decide
    · rw [spaceToPlus_ne_32 h1.2.2.1]
      exact h1.1
    · rw [spaceToPlus_ne_32 h2.2.2.1]
      exact h2.1
  · rw [if_neg hcase] at h
    simp only [List.map_cons, List.map_nil, List.mem_singleton] at h
    subst h
    have hb : inPctSet b = false := by
      cases hin : inPctSet b
      · rfl
      · exact absurd (by rw [hin]; simp) hcase
    obtain ⟨_, _, h58, _, _⟩ := not_inPctSet hb
    unfold spaceToPlus
    split <;> omega

theorem url_encode_no_colon (s : List Nat) : 58 ∉ url_encode s := by
  rw [url_encode_eq_flatMap]
  intro h
  obtain ⟨b, _, hx⟩ := List.mem_flatMap.mp h
  exact mem_encByte_ne_colon hx rfl

theorem percentDecodeBytes_cons_ne {b : Nat} (h : b ≠ 37) (rest : List Nat) :
    percentDecodeBytes (b :: rest) = b :: percentDecodeBytes rest := by
  simp [percentDecodeBytes, h]

theorem percentDecodeBytes_escape {h1 h2 v1 v2 : Nat} (e1 : hexAnyVal h1 = some v1)
    (e2 : hexAnyVal h2 = some v2) (rest : List Nat) :
    percentDecodeBytes (37 :: h1 :: h2 :: rest) = (v1 * 16 + v2) :: percentDecodeBytes rest := by
  simp [percentDecodeBytes, e1, e2]

/-- Decoding the plus-substituted encoding of one byte prepends that byte. -/
theorem decode_encByte {b : Nat} (hb : b < 256) (rest : List Nat) :
    percentDecodeBytes ((encByte b).map plusToSpace ++ rest) =
      b :: percentDecodeBytes rest := by
  unfold encByte
  by_cases hcase : (128 ≤ b || inPctSet b) = true
  · rw [if_pos hcase]
    unfold pctEscape
    have h1 := hexUpperDigit_ne (b / 16)
    have h2 := hexUpperDigit_ne (b % 16)
    simp only [List.map_cons, List.map_nil, List.cons_append, List.nil_append,
      spaceToPlus_ne_32 (by omega : (37:Nat) ≠ 32), plusToSpace_ne_43 (by omega : (37:Nat) ≠ 43),
      spaceToPlus_ne_32 h1.2.2.1, plusToSpace_ne_43 h1.2.1,
      spaceToPlus_ne_32 h2.2.2.1, plusToSpace_ne_43 h2.2.1]
    rw [percentDecodeBytes_escape (hexAnyVal_hexUpperDigit (by omega))
      (hexAnyVal_hexUpperDigit (by omega : b % 16 < 16))]
    have hx : b / 16 * 16 + b % 16 = b := by omega
    rw [hx]
  · rw [if_neg hcase]
    have hpct : inPctSet b = false := by
      cases hin : inPctSet b
      · rfl
      · exact absurd (by rw [hin]; simp) hcase
    obtain ⟨h32le, _, _, h43, h37⟩ := not_inPctSet hpct
    by_cases hsp : b = 32
    · subst hsp
      simp only [List.map_cons, List.map_nil, List.cons_append, List.nil_append]
      rw [show spaceToPlus 32 = 43 from rfl, show plusToSpace 43 = 32 from rfl]
      exact percentDecodeBytes_cons_ne (by omega) rest
    · simp only [List.map_cons, List.map_nil, List.cons_append, List.nil_append,
        spaceToPlus_ne_32 hsp, plusToSpace_ne_43 h43]
      exact percentDecodeBytes_cons_ne h37 rest

/-- The percent/plus round trip at the byte level. -/
theorem decode_bytes_encode (s : List Nat) (hb : ∀ b ∈ s, b < 256) :
    percentDecodeBytes ((url_encode s).map plusToSpace) = s := by
  induction s with
  | nil => rfl
  | cons b rest ih =>
    rw [url_encode_eq_flatMap] at ih ⊢
    simp only [List.flatMap_cons, List.map_append]
    rw [decode_encByte (hb b (by simp))]
    rw [ih (fun x hx => hb x (by simp [hx]))]

/-- `url_decode` inverts `url_encode` on every (UTF-8 valid) string. -/
theorem url_decode_url_encode (src s : List Nat) (hb : ∀ b ∈ s, b < 256)
    (hu : utf8Valid s = true) :
    url_decode src (url_encode s) = .ok s := by
  unfold url_decode
  rw [decode_bytes_encode s hb, if_pos hu]

end PercentLemmas

/-! ## The URI data model -/

/-- `SpotifyItemType` from the source: the closed set of six item kinds. -/
inductive SpotifyItemType where
  | album
  | artist
  | episode
  | playlist
  | show
  | track
deriving DecidableEq, Repr

/-- `impl From<&SpotifyItemType> for &str`: the canonical lowercase word. -/
def itemTypeStr : SpotifyItemType → List Nat
  | .album => bytes ("album")
  | .artist => bytes ("artist")
  | .episode => bytes ("episode")
  | .playlist => bytes ("playlist")
  | .show => bytes ("show")
  | .track => bytes ("track")

/-- `impl TryFrom<&str> for SpotifyItemType`: exact match against the six
canonical words; any other word comes back to the caller as the error
payload. -/
def itemTypeFromStr (v : List Nat) : Except (List Nat) SpotifyItemType :=
  if v = bytes ("album") then .ok .album
  else if v = bytes ("artist") then .ok .artist
  else if v = bytes ("episode") then .ok .episode
  else if v = bytes ("playlist") then .ok .playlist
  else if v = bytes ("show") then .ok .show
  else if v = bytes ("track") then .ok .track
  else .error v

/-- `SpotifyItem`: an item type paired with a 128-bit id. -/
structure SpotifyItem where
  item_type : SpotifyItemType
  id : Nat
deriving DecidableEq, Repr

/-- `SpotifyItem::is_playable`: Episode and Track only. -/
def SpotifyItem.is_playable (i : SpotifyItem) : Bool :=
  match i.item_type with
  | .album | .artist | .playlist | .show => false
  | .episode | .track => true

/-- `SpotifyMetaItem` from the source: only the pagination variant. -/
inductive SpotifyMetaItem where
  | page (n : Nat)
deriving DecidableEq, Repr

/-- `SpotifyLocalItem`: three free-text fields and a duration in seconds. -/
structure SpotifyLocalItem where
  artist : List Nat
  album_title : List Nat
  track_title : List Nat
  duration_s : Nat
deriving DecidableEq, Repr

/-- `SpotifyUri` from the source.  The Rust variants `Item` and `Local` are
named `item` and `localItem` here (`local` is a Lean keyword, and accessor
functions live at top level to avoid clashing with constructor names). -/
inductive SpotifyUri where
  | item (i : SpotifyItem)
  | userItem (username : List Nat) (i : SpotifyItem)
  | station (i : SpotifyItem)
  | meta (m : SpotifyMetaItem)
  | localItem (l : SpotifyLocalItem)
  | unknown (typ : List Nat) (rest : Option (List Nat))
deriving DecidableEq, Repr

/-- `SpotifyUri::item`: the contained item for `Item` and `UserItem` only. -/
def uriItem : SpotifyUri → Option SpotifyItem
  | .item i => some i
  | .userItem _ i => some i
  | .station _ => none
  | .meta _ => none
  | .localItem _ => none
  | .unknown _ _ => none

/-- `SpotifyUri::id`. -/
def uriId (u : SpotifyUri) : Option Nat :=
  (uriItem u).map SpotifyItem.id

/-- `SpotifyUri::item_type`. -/
def uriItemType (u : SpotifyUri) : Option SpotifyItemType :=
  (uriItem u).map SpotifyItem.item_type

/-- `SpotifyUri::username`. -/
def uriUsername : SpotifyUri → Option (List Nat)
  | .userItem username _ => some username
  | .item _ => none
  | .station _ => none
  | .meta _ => none
  | .localItem _ => none
  | .unknown _ _ => none

/-- `SpotifyUri::is_playable`. -/
def uriIsPlayable : SpotifyUri → Bool
  | .item i => i.is_playable
  | .userItem _ i => i.is_playable
  | .station _ => false
  | .meta _ => false
  | .localItem _ => false
  | .unknown _ _ => false

/-! ## The URI parser -/

/-- The reason string of `next_str_from_split`'s error. -/
def msgMissingPart : List Nat := bytes ("missing part")

/-- `rest_from_parts`: `None` when the segment iterator is exhausted,
otherwise the remaining segments rejoined with `:`. -/
def restFromParts (parts : List (List Nat)) : Option (List Nat) :=
  match parts with
  | [] => none
  | p :: rest => some (p ++ rest.flatMap (fun q => 58 :: q))

/-- `str_rest_from_parts`: like `rest_from_parts` but prefixed with `:` when
present and empty when absent. -/
def strRestFromParts (parts : List (List Nat)) : List Nat :=
  match restFromParts parts with
  | some s => 58 :: s
  | none => []

/-- `from_src_typ_parts_inj`: the item-type+id sub-grammar, parameterized by
the two outcome injections.  An unrecognized type word degrades immediately;
a recognized one requires an id segment that must decode as base62 (hard
error otherwise); trailing segments degrade to the `inj2` outcome carrying
the raw id string and remainder. -/
def fromSrcTypPartsInj (src typ : List Nat) (parts : List (List Nat))
    (inj1 : SpotifyItem → SpotifyUri)
    (inj2 : List Nat → Option (List Nat) → SpotifyUri) :
    Except SpotifyIdError SpotifyUri :=
  match itemTypeFromStr typ with
  | .ok item_type =>
    match parts with
    | [] => .error (.invalidFormat msgMissingPart src)
    | idStr :: parts2 =>
      match from_base62 idStr with
      | .error e => .error e
      | .ok id =>
        match parts2 with
        | next :: parts3 =>
          .ok (inj2 typ (some (idStr ++ 58 :: next ++ strRestFromParts parts3)))
        | [] => .ok (inj1 ⟨item_type, id⟩)
  | .error other => .ok (inj2 other (restFromParts parts))

/-- `from_src_parts_inj`: read the type word, then the sub-grammar. -/
def fromSrcPartsInj (src : List Nat) (parts : List (List Nat))
    (inj1 : SpotifyItem → SpotifyUri)
    (inj2 : List Nat → Option (List Nat) → SpotifyUri) :
    Except SpotifyIdError SpotifyUri :=
  match parts with
  | [] => .error (.invalidFormat msgMissingPart src)
  | typ :: rest => fromSrcTypPartsInj src typ rest inj1 inj2

/-- `meta_from_src_parts`: `page` followed by a `usize` page number, with the
intentional hard-fail/degrade asymmetry of the source. -/
def metaFromSrcParts (src : List Nat) (parts : List (List Nat)) :
    Except SpotifyIdError SpotifyUri :=
  match parts with
  | [] => .error (.invalidFormat msgMissingPart src)
  | seg :: p2 =>
    if seg = bytes ("page") then
      match p2 with
      | [] => .error (.invalidFormat msgMissingPart src)
      | numStr :: p3 =>
        match parseUnsigned (2 ^ 64) numStr with
        | .ok n =>
          match p3 with
          | [] => .ok (.meta (.page n))
          | next :: p4 =>
            .ok (.unknown (bytes ("meta"))
              (some (bytes ("page") ++ 58 :: natToStr n ++ 58 :: next ++
                strRestFromParts p4)))
        | .error e => .error (.invalidFormat e src)
    else .ok (.unknown (bytes ("meta")) (some (seg ++ strRestFromParts p2)))

/-- `local_from_src_parts`: exactly four segments decode to a `Local` (each
text field through the percent/plus codec, the duration as `u32`, all hard
errors); a fifth segment degrades to `Unknown` with the raw segments. -/
def localFromSrcParts (src : List Nat) (parts : List (List Nat)) :
    Except SpotifyIdError SpotifyUri :=
  match parts with
  | artist :: album_title :: track_title :: duration_s :: p4 =>
    match p4 with
    | [] =>
      match url_decode src artist with
      | .error e => .error e
      | .ok a =>
        match url_decode src album_title with
        | .error e => .error e
        | .ok b =>
          match url_decode src track_title with
          | .error e => .error e
          | .ok c =>
            match parseUnsigned (2 ^ 32) duration_s with
            | .error e => .error (.invalidFormat e src)
            | .ok n => .ok (.localItem ⟨a, b, c, n⟩)
    | next :: p5 =>
      .ok (.unknown (bytes ("local"))
        (some (artist ++ 58 :: album_title ++ 58 :: track_title ++
          58 :: duration_s ++ 58 :: next ++ strRestFromParts p5)))
  | _ => .error (.invalidFormat msgMissingPart src)

/-- The body of `impl TryFrom<&str> for SpotifyUri`, over the already-split
segment list. -/
def uriFromParts (src : List Nat) (parts : List (List Nat)) :
    Except SpotifyIdError SpotifyUri :=
  match parts with
  | [] => .error (.invalidFormat msgMissingPart src)
  | scheme :: p1 =>
    if scheme = bytes ("spotify") then
      match p1 with
      | [] => .error (.invalidFormat msgMissingPart src)
      | seg1 :: p2 =>
        if seg1 = bytes ("user") then
          match p2 with
          | [] => .error (.invalidFormat msgMissingPart src)
          | username :: p3 =>
            fromSrcPartsInj src p3 (fun i => .userItem username i)
              (fun other rest =>
                .unknown (bytes ("user"))
                  (some (username ++ 58 :: other ++
                    (match rest with | some r => 58 :: r | none => []))))
        else if seg1 = bytes ("station") then
          fromSrcPartsInj src p2 .station
            (fun other rest =>
              .unknown (bytes ("station"))
                (some (other ++ (match rest with | some r => 58 :: r | none => []))))
        else if seg1 = bytes ("meta") then metaFromSrcParts src p2
        else if seg1 = bytes ("local") then localFromSrcParts src p2
        else fromSrcTypPartsInj src seg1 p2 .item .unknown
    else .error (.invalidScheme src)

/-- `impl TryFrom<&str> for SpotifyUri`: split on `:` and dispatch. -/
def uriTryFrom (src : List Nat) : Except SpotifyIdError SpotifyUri :=
  uriFromParts src (splitColon src)

/-! ## The URI formatter -/

/-- `impl fmt::Display for SpotifyUri` (together with the `Display` impls of
the item, meta and local item types): the formatted byte sequence. -/
def uriToString : SpotifyUri → List Nat
  | .item i =>
    bytes ("spotify") ++ 58 :: (itemTypeStr i.item_type ++ 58 :: into_base62 i.id)
  | .userItem user i =>
    bytes ("spotify") ++ 58 :: (bytes ("user") ++ 58 :: (user ++
      58 :: (itemTypeStr i.item_type ++ 58 :: into_base62 i.id)))
  | .station i =>
    bytes ("spotify") ++ 58 :: (bytes ("station") ++
      58 :: (itemTypeStr i.item_type ++ 58 :: into_base62 i.id))
  | .meta (.page n) =>
    bytes ("spotify") ++ 58 :: (bytes ("meta") ++ 58 :: (bytes ("page") ++ 58 :: natToStr n))
  | .localItem l =>
    bytes ("spotify") ++ 58 :: (bytes ("local") ++ 58 :: (url_encode l.artist ++
      58 :: (url_encode l.album_title ++ 58 :: (url_encode l.track_title ++
      58 :: natToStr l.duration_s))))
  | .unknown typ rest =>
    bytes ("spotify") ++ 58 :: (typ ++ (match rest with | some r => 58 :: r | none => []))

/-! ## Parser evaluation lemmas -/

/-- The six item-type words. -/
def itemTypeWords : List (List Nat) :=
  [bytes ("album"), bytes ("artist"), bytes ("episode"), bytes ("playlist"),
   bytes ("show"), bytes ("track")]

/-- All second-segment words the parser treats specially: the four branch
words and the six item-type words. -/
def recognizedWords : List (List Nat) :=
  bytes ("user") :: bytes ("station") :: bytes ("meta") :: bytes ("local") :: itemTypeWords

theorem itemTypeStr_no_colon (t : SpotifyItemType) : 58 ∉ itemTypeStr t := by
  cases t <;> decide

theorem itemTypeFromStr_itemTypeStr (t : SpotifyItemType) :
    itemTypeFromStr (itemTypeStr t) = .ok t := by
  cases t <;> decide

theorem itemTypeStr_ne_special (t : SpotifyItemType) :
    itemTypeStr t ≠ bytes ("user") ∧ itemTypeStr t ≠ bytes ("station") ∧
      itemTypeStr t ≠ bytes ("meta") ∧ itemTypeStr t ≠ bytes ("local") := by
  cases t <;> exact ⟨by decide, by decide, by decide, by decide⟩

theorem item_word_ne_special {w : List Nat} (h : w ∈ itemTypeWords) :
    w ≠ bytes ("user") ∧ w ≠ bytes ("station") ∧ w ≠ bytes ("meta") ∧ w ≠ bytes ("local") := by
  fin_cases h <;> exact ⟨by decide, by decide, by decide, by decide⟩

theorem item_word_no_colon {w : List Nat} (h : w ∈ itemTypeWords) : 58 ∉ w := by
  fin_cases h <;> decide

theorem item_word_parse {w : List Nat} (h : w ∈ itemTypeWords) :
    ∃ t, itemTypeFromStr w = .ok t := by
  fin_cases h
  exacts [⟨.album, by decide⟩, ⟨.artist, by decide⟩, ⟨.episode, by decide⟩,
    ⟨.playlist, by decide⟩, ⟨.show, by decide⟩, ⟨.track, by decide⟩]

theorem itemTypeFromStr_not_mem {w : List Nat} (h : w ∉ itemTypeWords) :
    itemTypeFromStr w = .error w := by
  simp only [itemTypeWords, List.mem_cons, List.not_mem_nil, or_false, not_or] at h
  obtain ⟨h1, h2, h3, h4, h5, h6⟩ := h
  unfold itemTypeFromStr
  rw [if_neg h1, if_neg h2, if_neg h3, if_neg h4, if_neg h5, if_neg h6]

theorem not_recognized {w : List Nat} (h : w ∉ recognizedWords) :
    w ≠ bytes ("user") ∧ w ≠ bytes ("station") ∧ w ≠ bytes ("meta") ∧ w ≠ bytes ("local") ∧
      w ∉ itemTypeWords := by
  simp only [recognizedWords, List.mem_cons, not_or] at h
  refine ⟨h.1, h.2.1, h.2.2.1, h.2.2.2.1, ?_⟩
  intro hmem
  exact h.2.2.2.2 hmem

theorem restFromParts_splitColon (s : List Nat) : restFromParts (splitColon s) = some s := by
  cases hsp : splitColon s with
  | nil => exact absurd hsp (splitColon_ne_nil s)
  | cons p rest =>
    have hj := joinColon_splitColon s
    rw [hsp] at hj
    simp only [joinColon] at hj
    simp only [restFromParts, hj]

theorem cons_strRest_join (q : List Nat) (qs : List (List Nat)) :
    q ++ strRestFromParts qs = joinColon (q :: qs) := by
  cases qs with
  | nil => simp [strRestFromParts, restFromParts, joinColon]
  | cons r rs =>
    simp [strRestFromParts, restFromParts, joinColon, List.flatMap_cons, List.cons_append,
      List.append_assoc]

theorem splitColon_parts (s : List Nat) :
    ∃ q qs, splitColon s = q :: qs ∧ q ++ strRestFromParts qs = s := by
  cases hsp : splitColon s with
  | nil => exact absurd hsp (splitColon_ne_nil s)
  | cons q qs =>
    refine ⟨q, qs, rfl, ?_⟩
    rw [cons_strRest_join]
    have hj := joinColon_splitColon s
    rw [hsp] at hj
    exact hj

theorem fromSrcTypPartsInj_unknown {src w : List Nat} {parts : List (List Nat)}
    (h : w ∉ itemTypeWords) (inj1 : SpotifyItem → SpotifyUri)
    (inj2 : List Nat → Option (List Nat) → SpotifyUri) :
    fromSrcTypPartsInj src w parts inj1 inj2 = .ok (inj2 w (restFromParts parts)) := by
  unfold fromSrcTypPartsInj
  simp only [itemTypeFromStr_not_mem h]

theorem fromSrcTypPartsInj_clean {src : List Nat} {t : SpotifyItemType} {v : Nat}
    (h : v < 2 ^ 128) (inj1 : SpotifyItem → SpotifyUri)
    (inj2 : List Nat → Option (List Nat) → SpotifyUri) :
    fromSrcTypPartsInj src (itemTypeStr t) [into_base62 v] inj1 inj2 = .ok (inj1 ⟨t, v⟩) := by
  unfold fromSrcTypPartsInj
  simp only [itemTypeFromStr_itemTypeStr, from_base62_encode h]

theorem fromSrcTypPartsInj_iderr {src w idStr : List Nat} {parts2 : List (List Nat)}
    {e : SpotifyIdError} (hw : w ∈ itemTypeWords) (he : from_base62 idStr = .error e)
    (inj1 : SpotifyItem → SpotifyUri) (inj2 : List Nat → Option (List Nat) → SpotifyUri) :
    fromSrcTypPartsInj src w (idStr :: parts2) inj1 inj2 = .error e := by
  obtain ⟨t, ht⟩ := item_word_parse hw
  unfold fromSrcTypPartsInj
  simp only [ht, he]

theorem fromSrcTypPartsInj_extra {src w idStr next : List Nat} {parts3 : List (List Nat)}
    {v : Nat} (hw : w ∈ itemTypeWords) (hok : from_base62 idStr = .ok v)
    (inj1 : SpotifyItem → SpotifyUri) (inj2 : List Nat → Option (List Nat) → SpotifyUri) :
    fromSrcTypPartsInj src w (idStr :: next :: parts3) inj1 inj2 =
      .ok (inj2 w (some (idStr ++ 58 :: next ++ strRestFromParts parts3))) := by
  obtain ⟨t, ht⟩ := item_word_parse hw
  unfold fromSrcTypPartsInj
  simp only [ht, hok]

theorem uriFromParts_other {src w : List Nat} {p2 : List (List Nat)}
    (h1 : w ≠ bytes ("user")) (h2 : w ≠ bytes ("station"))
    (h3 : w ≠ bytes ("meta")) (h4 : w ≠ bytes ("local")) :
    uriFromParts src (bytes ("spotify") :: w :: p2) =
      fromSrcTypPartsInj src w p2 .item .unknown := by
  simp only [uriFromParts, if_true]
  rw [if_neg h1, if_neg h2, if_neg h3, if_neg h4]

theorem uriFromParts_user {src u : List Nat} {p3 : List (List Nat)} :
    uriFromParts src (bytes ("spotify") :: bytes ("user") :: u :: p3) =
      fromSrcPartsInj src p3 (fun i => .userItem u i)
        (fun other rest =>
          .unknown (bytes ("user"))
            (some (u ++ 58 :: other ++
              (match rest with | some r => 58 :: r | none => [])))) := by
  simp only [uriFromParts, if_true]

theorem uriFromParts_station {src : List Nat} {p2 : List (List Nat)} :
    uriFromParts src (bytes ("spotify") :: bytes ("station") :: p2) =
      fromSrcPartsInj src p2 .station
        (fun other rest =>
          .unknown (bytes ("station"))
            (some (other ++ (match rest with | some r => 58 :: r | none => [])))) := by
  simp only [uriFromParts, if_true]
  rw [if_neg (by decide)]

theorem uriFromParts_meta {src : List Nat} {p2 : List (List Nat)} :
    uriFromParts src (bytes ("spotify") :: bytes ("meta") :: p2) =
      metaFromSrcParts src p2 := by
  simp only [uriFromParts, if_true]
  rw [if_neg (by decide), if_neg (by decide)]

theorem uriFromParts_local {src : List Nat} {p2 : List (List Nat)} :
    uriFromParts src (bytes ("spotify") :: bytes ("local") :: p2) =
      localFromSrcParts src p2 := by
  simp only [uriFromParts, if_true]
  rw [if_neg (by decide), if_neg (by decide), if_neg (by decide)]

theorem splitColon_spotify (rest : List Nat) :
    splitColon (bytes ("spotify") ++ 58 :: rest) = bytes ("spotify") :: splitColon rest :=
  splitColon_append (by decide)

theorem from_base62_error_shape {s : List Nat} {e : SpotifyIdError}
    (h : from_base62 s = .error e) :
    e = .invalidIdSize 22 s ∨ ∃ m, e = .invalidFormat m s := by
  unfold from_base62 at h
  by_cases hl : s.length ≠ 22
  · rw [if_pos hl] at h
    injection h with h
    exact Or.inl h.symm
  · rw [if_neg hl] at h
    cases hd : decode_alternative s with
    | ok v => rw [hd] at h; cases h
    | error m =>
      rw [hd] at h
      injection h with h
      exact Or.inr ⟨m, h.symm⟩

theorem url_decode_error_shape {src s : List Nat} {e : SpotifyIdError}
    (h : url_decode src s = .error e) : e = .invalidFormat msgUtf8 src := by
  unfold url_decode at h
  by_cases hv : utf8Valid (percentDecodeBytes (s.map plusToSpace)) = true
  · rw [if_pos hv] at h
    cases h
  · rw [if_neg hv] at h
    injection h with h
    exact h.symm

/-! ## The claims -/

/-- Claim C9: the parser distinguishes a missing remainder from an empty one —
`spotify:unicorn` parses to `Unknown("unicorn", None)`, `spotify:unicorn:` to
`Unknown("unicorn", Some(""))`, and `spotify:unicorn::` to
`Unknown("unicorn", Some(":"))`. -/
theorem claim_C9 :
    uriTryFrom (bytes ("spotify:unicorn")) = .ok (.unknown (bytes ("unicorn")) none) ∧
    uriTryFrom (bytes ("spotify:unicorn:")) = .ok (.unknown (bytes ("unicorn")) (some [])) ∧
    uriTryFrom (bytes ("spotify:unicorn::")) = .ok (.unknown (bytes ("unicorn")) (some [58])) :=
  ⟨by decide, by decide, by decide⟩

/-- Claim C4 counterexample: a `Station` wrapping a Track item is not playable,
although the item itself is — contradicting the claim that playability tracks
the item type across `Station` wrapping. -/
theorem claim_C4_counterexample :
    SpotifyItem.is_playable ⟨.track, 0⟩ = true ∧
    uriIsPlayable (.station ⟨.track, 0⟩) = false :=
  ⟨rfl, rfl⟩

theorem is_playable_iff (i : SpotifyItem) :
    i.is_playable = true ↔ (i.item_type = .episode ∨ i.item_type = .track) := by
  obtain ⟨t, v⟩ := i
  cases t <;> simp [SpotifyItem.is_playable]

/-- Claim C4 (amended): `SpotifyItem::is_playable` is true exactly for Episode
and Track, and `SpotifyUri::is_playable` is true exactly for an `Item` or
`UserItem` wrapping an Episode or Track item — `Station`, `Meta`, `Local` and
`Unknown` are never playable. -/
theorem claim_C4 :
    (∀ i : SpotifyItem, i.is_playable = true ↔
      (i.item_type = .episode ∨ i.item_type = .track)) ∧
    (∀ u : SpotifyUri, uriIsPlayable u = true ↔
      ∃ i, (u = .item i ∨ ∃ name, u = .userItem name i) ∧
        (i.item_type = .episode ∨ i.item_type = .track)) := by
  refine ⟨is_playable_iff, ?_⟩
  intro u
  cases u <;> simp [uriIsPlayable, is_playable_iff]

/-- Claim C10: the accessors `item`, `id` and `item_type` return `Some`
exactly on the `Item` and `UserItem` variants; `Station` — though it
structurally contains an item — and `Meta`, `Local` and `Unknown` give `None`
from all three. -/
theorem claim_C10 :
    (∀ u : SpotifyUri,
      ((uriItem u).isSome = true ↔ (∃ i, u = .item i) ∨ (∃ n i, u = .userItem n i)) ∧
      ((uriId u).isSome = true ↔ (∃ i, u = .item i) ∨ (∃ n i, u = .userItem n i)) ∧
      ((uriItemType u).isSome = true ↔ (∃ i, u = .item i) ∨ (∃ n i, u = .userItem n i)) ∧
      uriId u = (uriItem u).map SpotifyItem.id ∧
      uriItemType u = (uriItem u).map SpotifyItem.item_type) ∧
    (∀ i : SpotifyItem,
      uriItem (.station i) = none ∧ uriId (.station i) = none ∧
        uriItemType (.station i) = none) := by
  constructor
  · intro u
    refine ⟨?_, ?_, ?_, rfl, rfl⟩ <;> cases u <;> simp [uriItem, uriId, uriItemType]
  · intro i
    exact ⟨rfl, rfl, rfl⟩

/-- Claim C1: base62 round trip at fixed width — every 128-bit value encodes
to exactly 22 bytes and decodes back to itself, and every canonical
22-character alphabet string whose value is representable in 128 bits decodes
and re-encodes to itself. -/
theorem claim_C1 :
    (∀ v : Nat, v < 2 ^ 128 →
      (into_base62 v).length = 22 ∧ from_base62 (into_base62 v) = .ok v) ∧
    (∀ s : List Nat, s.length = 22 → (∀ b ∈ s, (alphInv b).isSome = true) →
      base62Val s < 2 ^ 128 →
      from_base62 s = .ok (base62Val s) ∧ into_base62 (base62Val s) = s) := by
  constructor
  · intro v hv
    exact ⟨into_base62_length v, from_base62_encode hv⟩
  · intro s hlen hvalid hval
    have hne : s ≠ [] := by
      intro h
      rw [h] at hlen
      simp at hlen
    have hall : s.all (fun b => (alphInv b).isSome) = true := List.all_eq_true.mpr hvalid
    have hd : decode_alternative s = .ok (base62Val s) := by
      unfold decode_alternative
      rw [if_neg hne, if_pos hall, if_pos hval]
    constructor
    · unfold from_base62
      rw [if_neg (by omega)]
      simp only [hd]
    · have h2 := encodeAux_base62Val s hall
      rw [hlen] at h2
      exact h2

/-- Claim C1 witness: the round trip evaluated at `5` and at the canonical
string for `7`. -/
theorem claim_C1_witness :
    ((into_base62 5).length = 22 ∧ from_base62 (into_base62 5) = .ok 5) ∧
    (from_base62 (bytes ("0000000000000000000007")) =
        .ok (base62Val (bytes ("0000000000000000000007"))) ∧
      into_base62 (base62Val (bytes ("0000000000000000000007"))) =
        bytes ("0000000000000000000007")) :=
  ⟨claim_C1.1 5 (by norm_num),
    claim_C1.2 (bytes ("0000000000000000000007")) (by decide) (by decide) (by decide)⟩

/-- The byte sequence of a Rust string of 21 characters but 22 bytes: twenty
`a` characters followed by `é` (UTF-8 `0xC3 0xA9`). -/
def c8Str : List Nat := List.replicate 20 97 ++ [195, 169]

/-- Claim C8 counterexample: a valid UTF-8 string of 21 characters (but 22
bytes) is not rejected with `InvalidIdSize` as the claim's character-counted
length boundary asserts; it passes the byte-length check and fails decoding
with `InvalidFormat`. -/
theorem claim_C8_counterexample :
    utf8CharCount c8Str = 21 ∧ utf8Valid c8Str = true ∧
    from_base62 c8Str = .error (.invalidFormat msgInvalidBase62Byte c8Str) ∧
    from_base62 c8Str ≠ .error (.invalidIdSize 22 c8Str) :=
  ⟨by decide, by decide, by decide, by decide⟩

/-- Claim C8 (amended): the base62 length boundary is measured in bytes
(`str::len`): every 21- or 23-byte input fails with `InvalidIdSize(22)`
before decoding, and every 22-byte input containing a byte outside the
alternative alphabet fails with `InvalidFormat` carrying the decoder's
message. -/
theorem claim_C8 :
    (∀ s : List Nat, s.length = 21 ∨ s.length = 23 →
      from_base62 s = .error (.invalidIdSize 22 s)) ∧
    (∀ s : List Nat, s.length = 22 → (∃ b ∈ s, alphInv b = none) →
      from_base62 s = .error (.invalidFormat msgInvalidBase62Byte s)) := by
  constructor
  · intro s h
    unfold from_base62
    rw [if_pos (by omega)]
  · rintro s hlen ⟨b, hb, hbnone⟩
    have hne : s ≠ [] := by
      intro h
      rw [h] at hlen
      simp at hlen
    have hall : s.all (fun b => (alphInv b).isSome) = false := by
      cases hcase : s.all (fun b => (alphInv b).isSome) with
      | false => rfl
      | true =>
        have := List.all_eq_true.mp hcase b hb
        rw [hbnone] at this
        cases this
    have hd : decode_alternative s = .error msgInvalidBase62Byte := by
      unfold decode_alternative
      rw [if_neg hne, if_neg (by rw [hall]; simp)]
    unfold from_base62
    rw [if_neg (by omega)]
    simp only [hd]

/-- Claim C8 witness: the boundaries evaluated at a 21-byte input and at a
22-byte input containing `%`. -/
theorem claim_C8_witness :
    from_base62 (List.replicate 21 97) =
      .error (.invalidIdSize 22 (List.replicate 21 97)) ∧
    from_base62 (List.replicate 21 97 ++ [37]) =
      .error (.invalidFormat msgInvalidBase62Byte (List.replicate 21 97 ++ [37])) :=
  ⟨claim_C8.1 _ (Or.inl (by decide)),
    claim_C8.2 _ (by decide) ⟨37, by decide, by decide⟩⟩

/-- Claim C7 counterexample: `zz` has length 2 ≠ 32, yet `from_base16` does
not report `InvalidIdSize` as the claim asserts for every wrong-length input —
the decode runs first and reports `InvalidFormat` for the invalid symbols. -/
theorem claim_C7_counterexample :
    (bytes ("zz")).length ≠ 32 ∧
    from_base16 (bytes ("zz")) = .error (.invalidFormat msgHexSymbol (bytes ("zz"))) ∧
    from_base16 (bytes ("zz")) ≠ .error (.invalidIdSize 32 (bytes ("zz"))) :=
  ⟨by decide, by decide, by decide⟩

/-- Claim C7 (amended): the hex decode runs before the size check —
`InvalidIdSize(32, s)` is reported exactly when `s` decodes cleanly as
lowercase hex (even length, valid symbols) to other than 16 bytes; any decode
failure (odd length or an invalid symbol) reports `InvalidFormat`; a 32-byte
lowercase-hex input yields the big-endian value of the decoded bytes. -/
theorem claim_C7 :
    (∀ s : List Nat, (∀ b ∈ s, isHexLowerByte b = true) → s.length % 2 = 0 →
      s.length ≠ 32 → from_base16 s = .error (.invalidIdSize 32 s)) ∧
    (∀ s : List Nat, s.length % 2 = 1 ∨ (∃ b ∈ s, isHexLowerByte b = false) →
      ∃ m, from_base16 s = .error (.invalidFormat m s)) ∧
    (∀ s : List Nat, s.length = 32 → (∀ b ∈ s, isHexLowerByte b = true) →
      from_base16 s = .ok (beVal (hexBytes s))) := by
  refine ⟨?_, ?_, ?_⟩
  · intro s hval heven hne
    have hd := hexDecode_eq_ok s heven hval
    have hlen := hexBytes_length s heven
    unfold from_base16
    simp only [hd]
    rw [if_neg (by omega)]
  · intro s h
    obtain ⟨e, he⟩ := hexDecode_error s h
    refine ⟨e, ?_⟩
    unfold from_base16
    simp only [he]
  · intro s hlen hval
    have hd := hexDecode_eq_ok s (by omega) hval
    have hl : (hexBytes s).length = 16 := by
      rw [hexBytes_length s (by omega), hlen]
    unfold from_base16
    simp only [hd]
    rw [if_pos hl]

/-- Claim C7 witness: a 2-byte valid-hex input reports `InvalidIdSize(32)`, a
3-byte input reports `InvalidFormat`, and a 32-byte lowercase-hex input
decodes to its big-endian value. -/
theorem claim_C7_witness :
    from_base16 (bytes ("aa")) = .error (.invalidIdSize 32 (bytes ("aa"))) ∧
    (∃ m, from_base16 (bytes ("abc")) = .error (.invalidFormat m (bytes ("abc")))) ∧
    from_base16 (bytes ("9a1b1cfbc6f244569ae0356c77bbe9d8")) =
      .ok (beVal (hexBytes (bytes ("9a1b1cfbc6f244569ae0356c77bbe9d8")))) :=
  ⟨claim_C7.1 _ (by decide) (by decide) (by decide),
    claim_C7.2.1 _ (Or.inl (by decide)),
    claim_C7.2.2 _ (by decide) (by decide)⟩

/-- Claim C5: the percent/plus text codec — `url_decode` substitutes `+` with
space before percent-decoding, so `%2B` decodes to a literal plus while a
bare `+` decodes to a space; `url_encode` percent-encodes with the set of
controls, `:`, `+` and `%` (space excluded) and then replaces spaces with `+`;
and decoding inverts encoding on every string. -/
theorem claim_C5 :
    (∀ src s : List Nat, (∀ b ∈ s, b < 256) → utf8Valid s = true →
      url_decode src (url_encode s) = .ok s) ∧
    url_decode (bytes ("%2B")) (bytes ("%2B")) = .ok (bytes ("+")) ∧
    url_decode (bytes ("+")) (bytes ("+")) = .ok (bytes (" ")) ∧
    url_encode (bytes ("a b")) = bytes ("a+b") ∧
    url_encode (bytes ("a+b")) = bytes ("a%2Bb") :=
  ⟨url_decode_url_encode, by decide, by decide, by decide, by decide⟩

/-- Claim C5 witness: the round trip evaluated on a string exercising space,
plus, colon and percent. -/
theorem claim_C5_witness :
    url_decode (bytes ("x")) (url_encode (bytes ("a +:%25"))) = .ok (bytes ("a +:%25")) :=
  claim_C5.1 (bytes ("x")) (bytes ("a +:%25")) (by decide) (by decide)

/-- The URI `spotify:local:<a>:<b>:<c>:<d>` as a byte sequence. -/
def localSrc (a b c d : List Nat) : List Nat :=
  bytes ("spotify") ++ 58 :: (bytes ("local") ++ 58 :: (a ++ 58 :: (b ++ 58 :: (c ++ 58 :: d))))

theorem localSrc_split {a b c d : List Nat} (ha : 58 ∉ a) (hb : 58 ∉ b) (hc : 58 ∉ c)
    (hd : 58 ∉ d) :
    splitColon (localSrc a b c d) =
      [bytes ("spotify"), bytes ("local"), a, b, c, d] := by
  unfold localSrc
  rw [splitColon_append (by decide), splitColon_append (by decide), splitColon_append ha,
    splitColon_append hb, splitColon_append hc, splitColon_no_colon hd]

theorem localSrc_extra_split {a b c d : List Nat} (ha : 58 ∉ a) (hb : 58 ∉ b) (hc : 58 ∉ c)
    (hd : 58 ∉ d) (rest : List Nat) :
    splitColon (localSrc a b c d ++ 58 :: rest) =
      bytes ("spotify") :: bytes ("local") :: a :: b :: c :: d :: splitColon rest := by
  unfold localSrc
  simp only [List.append_assoc, List.cons_append]
  rw [splitColon_append (by decide), splitColon_append (by decide), splitColon_append ha,
    splitColon_append hb, splitColon_append hc, splitColon_append hd]

/-- Claim C6: the `local` branch — with exactly four further (colon-free)
segments the three text fields go through the percent/plus decoder and the
duration through `u32` parsing, and the parse succeeds exactly when they all
do; a text-decode failure is the hard `InvalidFormat` error it produced, a
duration failure (non-numeric or past the 32-bit range) is a hard
`InvalidFormat`; with more than four further segments the parse instead
degrades to `Unknown("local", raw segments rejoined)` without decoding
anything. -/
theorem claim_C6 :
    (∀ a b c d x y z : List Nat, ∀ n : Nat, 58 ∉ a → 58 ∉ b → 58 ∉ c → 58 ∉ d →
      url_decode (localSrc a b c d) a = .ok x →
      url_decode (localSrc a b c d) b = .ok y →
      url_decode (localSrc a b c d) c = .ok z →
      parseUnsigned (2 ^ 32) d = .ok n →
      uriTryFrom (localSrc a b c d) = .ok (.localItem ⟨x, y, z, n⟩)) ∧
    (∀ a b c d : List Nat, ∀ e : SpotifyIdError, 58 ∉ a → 58 ∉ b → 58 ∉ c → 58 ∉ d →
      url_decode (localSrc a b c d) a = .error e →
      uriTryFrom (localSrc a b c d) = .error e ∧
        e = .invalidFormat msgUtf8 (localSrc a b c d)) ∧
    (∀ a b c d x y z m : List Nat, 58 ∉ a → 58 ∉ b → 58 ∉ c → 58 ∉ d →
      url_decode (localSrc a b c d) a = .ok x →
      url_decode (localSrc a b c d) b = .ok y →
      url_decode (localSrc a b c d) c = .ok z →
      parseUnsigned (2 ^ 32) d = .error m →
      uriTryFrom (localSrc a b c d) = .error (.invalidFormat m (localSrc a b c d))) ∧
    (∀ a b c d rest : List Nat, 58 ∉ a → 58 ∉ b → 58 ∉ c → 58 ∉ d →
      uriTryFrom (localSrc a b c d ++ 58 :: rest) =
        .ok (.unknown (bytes ("local"))
          (some (a ++ 58 :: (b ++ 58 :: (c ++ 58 :: (d ++ 58 :: rest))))))) := by
  refine ⟨?_, ?_, ?_, ?_⟩
  · intro a b c d x y z n ha hb hc hd hdx hdy hdz hn
    unfold uriTryFrom
    rw [localSrc_split ha hb hc hd, uriFromParts_local]
    simp only [localFromSrcParts, hdx, hdy, hdz, hn]
  · intro a b c d e ha hb hc hd hde
    refine ⟨?_, url_decode_error_shape hde⟩
    unfold uriTryFrom
    rw [localSrc_split ha hb hc hd, uriFromParts_local]
    simp only [localFromSrcParts, hde]
  · intro a b c d x y z m ha hb hc hd hdx hdy hdz hm
    unfold uriTryFrom
    rw [localSrc_split ha hb hc hd, uriFromParts_local]
    simp only [localFromSrcParts, hdx, hdy, hdz, hm]
  · intro a b c d rest ha hb hc hd
    obtain ⟨q, qs, hsp, hjoin⟩ := splitColon_parts rest
    unfold uriTryFrom
    rw [localSrc_extra_split ha hb hc hd, hsp, uriFromParts_local]
    simp only [localFromSrcParts]
    rw [← hjoin]
    simp [List.append_assoc, List.cons_append]

/-- Claim C6 witness: the four local-branch behaviors evaluated at concrete
inputs — a successful decode with percent/plus text, an invalid-UTF-8 text
field, a duration of `4294967296 = 2^32` overflowing `u32`, and a fifth
segment causing raw degradation. -/
theorem claim_C6_witness :
    uriTryFrom (localSrc (bytes ("Artist+Name")) (bytes ("Album%3a%20Subtitle"))
        (bytes ("Track#")) (bytes ("120"))) =
      .ok (.localItem ⟨bytes ("Artist Name"), bytes ("Album: Subtitle"),
        bytes ("Track#"), 120⟩) ∧
    uriTryFrom (localSrc (bytes ("%80")) (bytes ("al")) (bytes ("tr")) (bytes ("1"))) =
      .error (.invalidFormat msgUtf8
        (localSrc (bytes ("%80")) (bytes ("al")) (bytes ("tr")) (bytes ("1")))) ∧
    uriTryFrom (localSrc (bytes ("ar")) (bytes ("al")) (bytes ("tr"))
        (bytes ("4294967296"))) =
      .error (.invalidFormat msgIntTooLarge
        (localSrc (bytes ("ar")) (bytes ("al")) (bytes ("tr")) (bytes ("4294967296")))) ∧
    uriTryFrom (localSrc (bytes ("ar")) (bytes ("al")) (bytes ("tr")) (bytes ("1")) ++
        58 :: bytes ("x:y")) =
      .ok (.unknown (bytes ("local")) (some (bytes ("ar:al:tr:1:x:y")))) := by
  refine ⟨?_, ?_, ?_, ?_⟩
  · exact claim_C6.1 _ _ _ _ _ _ _ 120 (by decide) (by decide) (by decide) (by decide)
      (by decide) (by decide) (by decide) (by decide)
  · exact (claim_C6.2.1 _ _ _ _ _ (by decide) (by decide) (by decide) (by decide)
      (by decide)).1
  · exact claim_C6.2.2.1 _ _ _ _ (bytes ("ar")) (bytes ("al")) (bytes ("tr")) _
      (by decide) (by decide) (by decide) (by decide) (by decide) (by decide) (by decide)
      (by decide)
  · have h := claim_C6.2.2.2 (bytes ("ar")) (bytes ("al")) (bytes ("tr")) (bytes ("1"))
      (bytes ("x:y")) (by decide) (by decide) (by decide) (by decide)
    rw [h]
    decide

/-- Claim C3: the degrade/hard-fail asymmetry of the item-type+id sub-grammar —
for a recognized item-type word an id that fails base62 decoding makes the
whole parse return that hard error (an `InvalidIdSize` or `InvalidFormat`),
while a valid id followed by extra segments degrades to
`Unknown(typ, Some(rawId ++ ":" ++ rest))`; an unrecognized type word
degrades to `Unknown` carrying the word and the raw remaining segments
rejoined with `:`. -/
theorem claim_C3 :
    (∀ w idStr : List Nat, ∀ e : SpotifyIdError, w ∈ itemTypeWords → 58 ∉ idStr →
      from_base62 idStr = .error e →
      uriTryFrom (bytes ("spotify") ++ 58 :: (w ++ 58 :: idStr)) = .error e ∧
        (e = .invalidIdSize 22 idStr ∨ ∃ m, e = .invalidFormat m idStr)) ∧
    (∀ w idStr rest : List Nat, ∀ v : Nat, w ∈ itemTypeWords → 58 ∉ idStr →
      from_base62 idStr = .ok v →
      uriTryFrom (bytes ("spotify") ++ 58 :: (w ++ 58 :: (idStr ++ 58 :: rest))) =
        .ok (.unknown w (some (idStr ++ 58 :: rest)))) ∧
    (∀ w rest : List Nat, w ∉ recognizedWords → 58 ∉ w →
      uriTryFrom (bytes ("spotify") ++ 58 :: (w ++ 58 :: rest)) =
        .ok (.unknown w (some rest)) ∧
      uriTryFrom (bytes ("spotify") ++ 58 :: w) = .ok (.unknown w none)) := by
  refine ⟨?_, ?_, ?_⟩
  · intro w idStr e hw hns he
    obtain ⟨h1, h2, h3, h4⟩ := item_word_ne_special hw
    have hwc := item_word_no_colon hw
    refine ⟨?_, from_base62_error_shape he⟩
    unfold uriTryFrom
    rw [splitColon_spotify, splitColon_append hwc, splitColon_no_colon hns,
      uriFromParts_other h1 h2 h3 h4, fromSrcTypPartsInj_iderr hw he]
  · intro w idStr rest v hw hns hok
    obtain ⟨h1, h2, h3, h4⟩ := item_word_ne_special hw
    have hwc := item_word_no_colon hw
    obtain ⟨q, qs, hsp, hjoin⟩ := splitColon_parts rest
    unfold uriTryFrom
    rw [splitColon_spotify, splitColon_append hwc, splitColon_append hns, hsp,
      uriFromParts_other h1 h2 h3 h4, fromSrcTypPartsInj_extra hw hok, ← hjoin]
    simp [List.append_assoc, List.cons_append]
  · intro w rest hw hnc
    obtain ⟨h1, h2, h3, h4, h6⟩ := not_recognized hw
    constructor
    · unfold uriTryFrom
      rw [splitColon_spotify, splitColon_append hnc, uriFromParts_other h1 h2 h3 h4,
        fromSrcTypPartsInj_unknown h6, restFromParts_splitColon]
    · unfold uriTryFrom
      rw [splitColon_spotify, splitColon_no_colon hnc, uriFromParts_other h1 h2 h3 h4,
        fromSrcTypPartsInj_unknown h6]
      rfl

/-- Claim C3 witness: a 21-byte id after `album` fails hard with
`InvalidIdSize`, a valid id with a trailing segment degrades to `Unknown`,
and an unrecognized word degrades with the raw remainder. -/
theorem claim_C3_witness :
    uriTryFrom (bytes ("spotify") ++ 58 :: (bytes ("album") ++
        58 :: bytes ("4GNcXTGWmnZ3ySrqvol3o"))) =
      .error (.invalidIdSize 22 (bytes ("4GNcXTGWmnZ3ySrqvol3o"))) ∧
    uriTryFrom (bytes ("spotify") ++ 58 :: (bytes ("album") ++ 58 ::
        (bytes ("4GNcXTGWmnZ3ySrqvol3o4") ++ 58 :: bytes ("extra")))) =
      .ok (.unknown (bytes ("album"))
        (some (bytes ("4GNcXTGWmnZ3ySrqvol3o4") ++ 58 :: bytes ("extra")))) ∧
    uriTryFrom (bytes ("spotify") ++ 58 :: (bytes ("unicornx") ++ 58 :: bytes ("a:b"))) =
      .ok (.unknown (bytes ("unicornx")) (some (bytes ("a:b")))) := by
  refine ⟨?_, ?_, ?_⟩
  · exact (claim_C3.1 (bytes ("album")) (bytes ("4GNcXTGWmnZ3ySrqvol3o")) _
      (by decide) (by decide) (by decide)).1
  · exact claim_C3.2.1 (bytes ("album")) (bytes ("4GNcXTGWmnZ3ySrqvol3o4"))
      (bytes ("extra")) 204841891221366092811751085145916697048
      (by decide) (by decide) (by decide)
  · exact (claim_C3.2.2 (bytes ("unicornx")) (bytes ("a:b")) (by decide) (by decide)).1

/-- Fields from which formatting then reparsing provably round-trips: ids fit
in 128 bits, usernames are colon-free, page numbers fit in `usize`, local
text fields are genuine strings (UTF-8 bytes) with a `u32` duration, and an
`Unknown` word is colon-free and none of the ten recognized second-segment
words. -/
def validFields : SpotifyUri → Prop
  | .item i => i.id < 2 ^ 128
  | .userItem u i => 58 ∉ u ∧ i.id < 2 ^ 128
  | .station i => i.id < 2 ^ 128
  | .meta (.page n) => n < 2 ^ 64
  | .localItem l =>
      (∀ x ∈ l.artist, x < 256) ∧ utf8Valid l.artist = true ∧
      (∀ x ∈ l.album_title, x < 256) ∧ utf8Valid l.album_title = true ∧
      (∀ x ∈ l.track_title, x < 256) ∧ utf8Valid l.track_title = true ∧
      l.duration_s < 2 ^ 32
  | .unknown w _ => 58 ∉ w ∧ w ∉ recognizedWords

/-- Claim C2 counterexample: `Unknown("album", None)` is built from a valid
type word and remainder, yet formatting it to `spotify:album` and reparsing
does not return the value — it is a hard `missing part` error, because the
recognized item-type word demands an id segment. -/
theorem claim_C2_counterexample :
    uriToString (.unknown (bytes ("album")) none) = bytes ("spotify:album") ∧
    uriTryFrom (uriToString (.unknown (bytes ("album")) none)) =
      .error (.invalidFormat msgMissingPart (bytes ("spotify:album"))) ∧
    uriTryFrom (uriToString (.unknown (bytes ("album")) none)) ≠
      .ok (.unknown (bytes ("album")) none) :=
  ⟨by decide, by decide, by decide⟩

/-- Claim C2 (amended): formatting then reparsing returns the same value for
every `Item`, `UserItem` (colon-free username), `Station`, `Meta` and `Local`
(the percent/plus normalization is exact at the value level), and for every
`Unknown` whose word is colon-free and outside the ten recognized
second-segment words; `Unknown` values with a recognized word may instead
reparse to a structured variant or fail. -/
theorem claim_C2 : ∀ u : SpotifyUri, validFields u → uriTryFrom (uriToString u) = .ok u := by
  intro u hu
  cases u with
  | item i =>
    obtain ⟨t, v⟩ := i
    have hv : v < 2 ^ 128 := hu
    obtain ⟨h1, h2, h3, h4⟩ := itemTypeStr_ne_special t
    simp only [uriToString]
    unfold uriTryFrom
    rw [splitColon_spotify, splitColon_append (itemTypeStr_no_colon t),
      splitColon_no_colon (into_base62_no_colon v), uriFromParts_other h1 h2 h3 h4,
      fromSrcTypPartsInj_clean hv]
  | userItem u i =>
    obtain ⟨hnc, hv⟩ := hu
    obtain ⟨t, v⟩ := i
    simp only [uriToString]
    unfold uriTryFrom
    rw [splitColon_spotify, splitColon_append (by decide), splitColon_append hnc,
      splitColon_append (itemTypeStr_no_colon t),
      splitColon_no_colon (into_base62_no_colon v), uriFromParts_user]
    simp only [fromSrcPartsInj]
    rw [fromSrcTypPartsInj_clean hv]
  | station i =>
    have hv : i.id < 2 ^ 128 := hu
    obtain ⟨t, v⟩ := i
    simp only [uriToString]
    unfold uriTryFrom
    rw [splitColon_spotify, splitColon_append (by decide),
      splitColon_append (itemTypeStr_no_colon t),
      splitColon_no_colon (into_base62_no_colon v), uriFromParts_station]
    simp only [fromSrcPartsInj]
    rw [fromSrcTypPartsInj_clean hv]
  | meta m =>
    obtain ⟨n⟩ := m
    have hn : n < 2 ^ 64 := hu
    simp only [uriToString]
    unfold uriTryFrom
    rw [splitColon_spotify, splitColon_append (by decide), splitColon_append (by decide),
      splitColon_no_colon (natToStr_no_colon n), uriFromParts_meta]
    simp only [metaFromSrcParts, if_true, parseUnsigned_natToStr hn]
  | localItem l =>
    obtain ⟨a, b, c, dn⟩ := l
    obtain ⟨hba, hua, hbb, hub, hbc, huc, hdn⟩ := hu
    simp only [uriToString]
    unfold uriTryFrom
    rw [splitColon_spotify, splitColon_append (by decide),
      splitColon_append (url_encode_no_colon a), splitColon_append (url_encode_no_colon b),
      splitColon_append (url_encode_no_colon c), splitColon_no_colon (natToStr_no_colon dn),
      uriFromParts_local]
    simp only [localFromSrcParts, url_decode_url_encode _ a hba hua,
      url_decode_url_encode _ b hbb hub, url_decode_url_encode _ c hbc huc,
      parseUnsigned_natToStr hdn]
  | unknown w r =>
    obtain ⟨hnc, hnr⟩ := hu
    obtain ⟨h1, h2, h3, h4, h6⟩ := not_recognized hnr
    cases r with
    | none =>
      simp only [uriToString, List.append_nil]
      unfold uriTryFrom
      rw [splitColon_spotify, splitColon_no_colon hnc, uriFromParts_other h1 h2 h3 h4,
        fromSrcTypPartsInj_unknown h6]
      rfl
    | some rv =>
      simp only [uriToString]
      unfold uriTryFrom
      rw [splitColon_spotify, splitColon_append hnc, uriFromParts_other h1 h2 h3 h4,
        fromSrcTypPartsInj_unknown h6, restFromParts_splitColon]

/-- Claim C2 witness: the round trip evaluated on one value of each variant,
including a `Local` with text needing encoding and an `Unknown` with an
empty-string remainder. -/
theorem claim_C2_witness :
    uriTryFrom (uriToString (.item ⟨.track, 238762092608182713602505436543891614649⟩)) =
      .ok (.item ⟨.track, 238762092608182713602505436543891614649⟩) ∧
    uriTryFrom (uriToString (.userItem (bytes ("name")) ⟨.playlist, 7⟩)) =
      .ok (.userItem (bytes ("name")) ⟨.playlist, 7⟩) ∧
    uriTryFrom (uriToString (.station ⟨.track, 99⟩)) = .ok (.station ⟨.track, 99⟩) ∧
    uriTryFrom (uriToString (.meta (.page 2))) = .ok (.meta (.page 2)) ∧
    uriTryFrom (uriToString (.localItem ⟨bytes ("Artist Name"), bytes ("Album: Subtitle"),
        bytes ("Track#"), 120⟩)) =
      .ok (.localItem ⟨bytes ("Artist Name"), bytes ("Album: Subtitle"),
        bytes ("Track#"), 120⟩) ∧
    uriTryFrom (uriToString (.unknown (bytes ("unicorn")) (some []))) =
      .ok (.unknown (bytes ("unicorn")) (some [])) :=
  ⟨claim_C2 _ (show (238762092608182713602505436543891614649 : Nat) < 2 ^ 128 by norm_num),
    claim_C2 _ ⟨by decide, by norm_num⟩,
    claim_C2 _ (show (99 : Nat) < 2 ^ 128 by norm_num),
    claim_C2 _ (show (2 : Nat) < 2 ^ 64 by norm_num),
    claim_C2 _ ⟨by decide, by decide, by decide, by decide, by decide, by decide,
      by norm_num⟩,
    claim_C2 _ ⟨by decide, by decide⟩⟩

end SpotifyIdSpec
